import Mathlib

/-!
Verification of the normalization and box-assignment engine of the
PSL-to-MTD reconciliation program (src/app.py).  Amounts are modelled as
rationals, cell values as an inductive type, and Python dict/regex
behaviour is embedded as executable Lean functions over character lists.
-/

namespace PslMtd

/-- Characters matched by the regex class \s (the forms occurring in the
data; Python also treats some rarer unicode spaces as whitespace, which
never appear here). -/
def isPySpace (c : Char) : Bool :=
  decide (c = ' ' ∨ c = '\t' ∨ c = '\n' ∨ c = '\r' ∨ c = '\x0b' ∨ c = '\x0c')

/-- ASCII model of Python str.lower (the engine lower-cases only header and
code text, which is ASCII). -/
def lowerChar (c : Char) : Char :=
  if 'A' ≤ c ∧ c ≤ 'Z' then Char.ofNat (c.toNat + 32) else c

/-- Python str.strip: drop leading and trailing whitespace. -/
def pyStripL (cs : List Char) : List Char :=
  ((cs.dropWhile isPySpace).reverse.dropWhile isPySpace).reverse

/-- Word characters for the regex \b boundary (ASCII model of \w). -/
def isWordChar (c : Char) : Bool :=
  decide (('a' ≤ c ∧ c ≤ 'z') ∨ ('A' ≤ c ∧ c ≤ 'Z') ∨ ('0' ≤ c ∧ c ≤ '9') ∨ c = '_')

/-- Substring test: does the needle occur contiguously inside the haystack?
Models the Python expression needle in haystack. -/
def isPrefixL : List Char → List Char → Bool
  | [], _ => true
  | _ :: _, [] => false
  | a :: as, b :: bs => a = b && isPrefixL as bs

def isSub (needle : List Char) : List Char → Bool
  | [] => needle.isEmpty
  | c :: hs => isPrefixL needle (c :: hs) || isSub needle hs

/-- One spreadsheet cell, after the collaborator has loaded the workbook:
a pandas NaN (missing cell), a Python None (the value of a failed dict
lookup and of scrubbed missing markers), a string, or a number. -/
inductive CellValue
  | na
  | pynone
  | str (s : String)
  | num (q : ℚ)
deriving DecidableEq

/-- Decimal-literal parser modelling Python float() on the cleaned strings
the engine feeds it: optional sign, digits, optional fractional part.
(Exponent and inf/nan forms are accepted by Python but decide no claim.) -/
def parseDec (cs : List Char) : Option ℚ :=
  let signed : ℚ × List Char :=
    match cs with
    | '-' :: rest => (-1, rest)
    | '+' :: rest => (1, rest)
    | _ => (1, cs)
  let intPart := signed.2.takeWhile Char.isDigit
  let rest1 := signed.2.dropWhile Char.isDigit
  let intVal : ℚ := (intPart.foldl (fun n c => 10 * n + (c.toNat - 48)) 0 : ℕ)
  match rest1 with
  | [] => if intPart.isEmpty then none else some (signed.1 * intVal)
  | '.' :: rest2 =>
    let frac := rest2.takeWhile Char.isDigit
    let rest3 := rest2.dropWhile Char.isDigit
    let fracVal : ℚ := (frac.foldl (fun n c => 10 * n + (c.toNat - 48)) 0 : ℕ)
    if rest3 = [] ∧ ¬(intPart = [] ∧ frac = []) then
      some (signed.1 * (intVal + fracVal / (10 : ℚ) ^ frac.length))
    else none
  | _ => none

/-- Embedding of _to_float: missing values coerce to 0, strings are
comma-stripped and trimmed then parsed (0 on failure), numbers pass
through.  Total by construction, mirroring the try/except that never
raises. -/
def to_float (x : CellValue) : ℚ :=
  match x with
  | .na => 0
  | .pynone => 0
  | .num q => q
  | .str s => (parseDec (pyStripL (s.data.filter (fun c => decide (c ≠ ','))))).getD 0

/-!
VAT_CODE_REGEX as a deterministic matcher.  Each top-level alternative of
the Python pattern is a sequence of literals, greedy whitespace stars,
an optional dash and word boundaries; none of them requires backtracking,
so re.search is the leftmost position at which the first alternative (in
pattern order) matches, and group(0) is the consumed text.
-/

/-- One element of a regex alternative. -/
inductive RE
  | lit (s : String)
  | ws
  | optDash
  | wb

/-- Match a literal character list at the head of the input, returning the
remainder. -/
def matchLit : List Char → List Char → Option (List Char)
  | [], cs => some cs
  | _ :: _, [] => none
  | l :: ls, c :: cs => if c = l then matchLit ls cs else none

/-- Last character of a consumed chunk, falling back to the previous one
(used to track the character left of the cursor for \b). -/
def lastOr (prev : Option Char) (chunk : List Char) : Option Char :=
  match chunk.getLast? with
  | some c => some c
  | none => prev

/-- Match a sequence of regex elements at the head of the input.  prev is
the character immediately left of the cursor (none at string start).
Returns the consumed characters and the remainder. -/
def matchSeq (prev : Option Char) : List RE → List Char → Option (List Char × List Char)
  | [], cs => some ([], cs)
  | .lit l :: ps, cs =>
    match matchLit l.data cs with
    | some rest =>
      (matchSeq (lastOr prev l.data) ps rest).map (fun mr => (l.data ++ mr.1, mr.2))
    | none => none
  | .ws :: ps, cs =>
    let t := cs.takeWhile isPySpace
    let d := cs.dropWhile isPySpace
    (matchSeq (lastOr prev t) ps d).map (fun mr => (t ++ mr.1, mr.2))
  | .optDash :: ps, cs =>
    match cs with
    | '-' :: rest => (matchSeq (some '-') ps rest).map (fun mr => ('-' :: mr.1, mr.2))
    | _ => matchSeq prev ps cs
  | .wb :: ps, cs =>
    let nextWord := match cs with | c :: _ => isWordChar c | [] => false
    let prevWord := match prev with | some c => isWordChar c | none => false
    if prevWord ≠ nextWord then matchSeq prev ps cs else none

/-- The alternatives of VAT_CODE_REGEX, flattened in pattern order.  The
first five groups of the pattern are each followed by a literal space
(the pattern text has a space before each top-level bar), which therefore
belongs to group(0); the NI/EU group has no trailing space. -/
def VAT_ALTS : List (List RE) := [
  [.lit "t", .ws, .optDash, .ws, .lit "20", .lit " "],
  [.lit "t", .ws, .optDash, .ws, .lit "1", .lit " "],
  [.lit "std", .lit " "],
  [.lit "standard", .lit " "],
  [.lit "20%", .lit " "],
  [.lit "20", .lit " "],
  [.lit "t", .ws, .optDash, .ws, .lit "0", .lit " "],
  [.lit "zero", .lit " "],
  [.lit "0%", .lit " "],
  [.lit "exempt", .lit " "],
  [.lit "e", .lit " "],
  [.lit "vx", .lit " "],
  [.lit "out", .ws, .lit "of", .ws, .lit "scope", .lit " "],
  [.lit "oos", .lit " "],
  [.lit "t", .ws, .optDash, .ws, .lit "5", .lit " "],
  [.lit "5%", .lit " "],
  [.lit "reduced", .lit " "],
  [.lit "ni"],
  [.lit "northern", .ws, .lit "ireland"],
  [.wb, .lit "eu", .wb],
  [.wb, .lit "ec", .wb]]

/-- Try every alternative, in pattern order, at the current position. -/
def tryAlts (prev : Option Char) (cs : List Char) : Option (List Char) :=
  VAT_ALTS.findSome? (fun alt => (matchSeq prev alt cs).map (·.1))

/-- Scan positions left to right; at each, try the alternatives in order.
Models re.search returning group(0). -/
def searchAux (prev : Option Char) : List Char → Option (List Char)
  | [] => tryAlts prev []
  | c :: cs =>
    match tryAlts prev (c :: cs) with
    | some m => some m
    | none => searchAux (some c) cs

def vatRegexSearch (cs : List Char) : Option (List Char) := searchAux none cs

/-- NORMALISE_MAP with its Python dict insertion order, which is also its
iteration order for the substring scans. -/
def NORMALISE_MAP : List (String × String) := [
  ("t20", "T20"), ("t1", "T20"), ("std", "T20"), ("standard", "T20"),
  ("20", "T20"), ("20%", "T20"),
  ("t0", "T0"), ("z", "T0"), ("zero", "T0"), ("0", "T0"), ("0%", "T0"),
  ("e", "EXEMPT"), ("exempt", "EXEMPT"),
  ("vx", "OOS"), ("oos", "OOS"), ("outofscope", "OOS"), ("out of scope", "OOS"),
  ("t5", "REDUCED"), ("5", "REDUCED"), ("5%", "REDUCED"), ("reduced", "REDUCED"),
  ("ni", "NI"), ("northern ireland", "NI"),
  ("eu", "EU"), ("ec", "EU"), ("eec", "EU")]

/-- First table entry whose key occurs as a substring of the block, in
table order. -/
def firstSubstrHit (block : List Char) : Option String :=
  (NORMALISE_MAP.find? (fun kv => isSub kv.1.data block)).map (·.2)

/-- Exact dict lookup of a single token. -/
def lookupTokL (t : List Char) : Option String :=
  (NORMALISE_MAP.find? (fun kv => kv.1.data == t)).map (·.2)

/-- Characters kept by the token split re.split of [^a-z0-9%]+ applied to
the lowered code text. -/
def isTokChar (c : Char) : Bool :=
  decide (('a' ≤ c ∧ c ≤ 'z') ∨ ('0' ≤ c ∧ c ≤ '9') ∨ c = '%')

/-- Worker for the token split: some cur means a field (reversed) is being
built, none means the scan is inside a separator run whose field was
already emitted.  Structural recursion so the kernel can evaluate it. -/
def splitTokGo : Option (List Char) → List Char → List (List Char)
  | some cur, [] => [cur.reverse]
  | none, [] => [[]]
  | some cur, c :: rest =>
    if isTokChar c then splitTokGo (some (c :: cur)) rest
    else cur.reverse :: splitTokGo none rest
  | none, c :: rest =>
    if isTokChar c then splitTokGo (some [c]) rest
    else splitTokGo none rest

/-- re.split on runs of non-token characters; boundary separators yield
empty fields exactly as in Python. -/
def splitTok (cs : List Char) : List (List Char) := splitTokGo (some []) cs

/-- Python str(val or "") for a cell: None and falsy values render empty,
NaN renders as the string nan, nonzero numbers via their repr (the number
branch is a loose rendering; no claim exercises it). -/
def floatStr (q : ℚ) : String :=
  if q.den = 1 then toString q.num ++ ".0" else toString q.num ++ "/" ++ toString q.den

def strOfValOr (v : CellValue) : String :=
  match v with
  | .na => "nan"
  | .pynone => ""
  | .str s => s
  | .num q => if q = 0 then "" else floatStr q

/-- Plain Python str() of a cell value. -/
def pyStr (v : CellValue) : String :=
  match v with
  | .na => "nan"
  | .pynone => "None"
  | .str s => s
  | .num q => floatStr q

/-- The stripped, lowered code token the normaliser works on. -/
def vatToken (val : CellValue) : List Char :=
  (pyStripL (strOfValOr val).data).map lowerChar

/-- Phase 1 of normalise_vat_code: regex bucket search over the token and
substring scan of the matched block against the table. -/
def vatRegexPhase (s : List Char) : Option String :=
  if s.isEmpty then none
  else
    match vatRegexSearch s with
    | some g0 => firstSubstrHit (g0.map lowerChar)
    | none => none

/-- Phase 2: split into tokens and look each up verbatim. -/
def vatTokenPhase (s : List Char) : Option String :=
  (if s.isEmpty then [] else splitTok s).findSome? lookupTokL

/-- Phase 3: substring scan of the lowered fallback description. -/
def vatDescPhase (d : String) : Option String :=
  firstSubstrHit (d.data.map lowerChar)

/-- Embedding of normalise_vat_code: the three phases in source order,
first success wins, UNKNOWN otherwise. -/
def normalise_vat_code (val : CellValue) (description : String) : String :=
  let s := vatToken val
  match vatRegexPhase s with
  | some v => v
  | none =>
    match vatTokenPhase s with
    | some v => v
    | none =>
      match vatDescPhase description with
      | some v => v
      | none => "UNKNOWN"

/-- A data row: original column name paired with its cell value, in column
order. -/
def Row := List (String × CellValue)
deriving DecidableEq

/-- Embedding of the Line dataclass.  The show field keeps the source name
via a quoted identifier since show is a Lean keyword. -/
structure Line where
  «show» : String
  sheet : String
  date : Option String
  ref : Option String
  supplier : Option String
  description : Option String
  net : ℚ
  vat : ℚ
  gross : ℚ
  vat_code : String
  source_type : String
  raw : Row
deriving DecidableEq

/-- Normalised header text: re.sub collapsing whitespace runs to one
space, then strip, then lower. -/
def collapseWsGo : Bool → List Char → List Char
  | _, [] => []
  | inRun, c :: rest =>
    if isPySpace c then
      if inRun then collapseWsGo true rest
      else ' ' :: collapseWsGo true rest
    else c :: collapseWsGo false rest

def collapseWs (cs : List Char) : List Char := collapseWsGo false cs

def normHeader (c : String) : String :=
  String.mk ((pyStripL (collapseWs c.data)).map lowerChar)

def lowerS (s : String) : String := String.mk (s.data.map lowerChar)

/-- Embedding of _find_col: an exact pass (candidate order outer, column
order inner, comparing the whitespace-collapsed lower header with the
lowered candidate) and then a fuzzy substring pass (candidate order outer,
column order inner, on the plain lowered header). -/
def exactPass (cols keys : List String) : Option String :=
  keys.findSome? (fun want => cols.find? (fun c => normHeader c == lowerS want))

def fuzzyPass (cols keys : List String) : Option String :=
  keys.findSome? (fun want => cols.find? (fun c => isSub (lowerS want).data (lowerS c).data))

def _find_col (cols keys : List String) : Option String :=
  match exactPass cols keys with
  | some c => some c
  | none => fuzzyPass cols keys

/-- COL_CANDIDATES, per semantic field. -/
def candDate : List String := ["date", "txn date", "doc date", "invoice date", "posting date"]
def candRef : List String := ["invoice", "inv", "document", "doc no", "reference", "ref"]
def candSupplier : List String := ["supplier", "vendor", "customer", "name", "account name"]
def candDescription : List String := ["description", "narrative", "memo", "details"]
def candNet : List String :=
  ["net", "amount (excl)", "amount excl vat", "goods", "taxable amount", "base", "amount"]
def candVat : List String := ["vat", "tax", "vat amount", "tax amount", "vat amt"]
def candGross : List String := ["gross", "amount (incl)", "total", "amount incl vat"]
def candVatCode : List String :=
  ["vat code", "tax code", "code", "t-code", "vat type", "rate", "vat rate"]

/-- Embedding of detect_source_type over the lowered sheet-plus-filename
probe text. -/
def detect_source_type (sheetName filename : String) : String :=
  let probe := (sheetName ++ " " ++ filename).data.map lowerChar
  if ["sale", "ar", "output"].any (fun w => isSub w.data probe) then "sales"
  else if ["purchase", "ap", "input", "payable"].any (fun w => isSub w.data probe) then
    "purchases"
  else "unknown"

/-- Series.get on a row: the cell of the named column, or None when the
key is absent (the only absent key the source passes is the literal
None). -/
def rowGet (r : Row) (c : String) : CellValue :=
  ((r.find? (fun kv => kv.1 == c)).map (·.2)).getD .pynone

def rowGetOpt (r : Row) (co : Option String) : CellValue :=
  match co with
  | some c => rowGet r c
  | none => .pynone

/-- Coerced net of a row given the resolved net column. -/
def rowNet (c_net : Option String) (r : Row) : ℚ :=
  match c_net with
  | some c => to_float (rowGet r c)
  | none => 0

def rowVat (c_vat : Option String) (r : Row) : ℚ :=
  match c_vat with
  | some c => to_float (rowGet r c)
  | none => 0

/-- Coerced gross: the gross column when it resolves, net plus vat
otherwise (the gross default rule). -/
def rowGross (c_gross c_net c_vat : Option String) (r : Row) : ℚ :=
  match c_gross with
  | some c => to_float (rowGet r c)
  | none => rowNet c_net r + rowVat c_vat r

/-- The raw-dict scrub: missing markers become None, everything else is
kept. -/
def scrubCell (v : CellValue) : CellValue :=
  match v with
  | .na => .pynone
  | w => w

/-- Embedding of the per-row body of parse_excel: coerce the amounts, drop
the row when all three are zero, otherwise normalise the VAT code (the
code cell when a code column resolved, the empty string otherwise, with
str of the description cell as fallback) and build the Line. -/
def processRow (showN sheetN srcType : String)
    (c_date c_ref c_supplier c_desc c_net c_vat c_gross c_code : Option String)
    (r : Row) : Option Line :=
  let net := rowNet c_net r
  let vat := rowVat c_vat r
  let gross := rowGross c_gross c_net c_vat r
  if net = 0 ∧ vat = 0 ∧ gross = 0 then none
  else
    let descStr := pyStr (rowGetOpt r c_desc)
    let vcode :=
      match c_code with
      | some c => normalise_vat_code (rowGet r c) descStr
      | none => normalise_vat_code (.str "") descStr
    some {
      «show» := showN
      sheet := sheetN
      date := c_date.map (fun c => pyStr (rowGet r c))
      ref := c_ref.map (fun c => pyStr (rowGet r c))
      supplier := c_supplier.map (fun c => pyStr (rowGet r c))
      description := c_desc.map (fun c => pyStr (rowGet r c))
      net := net
      vat := vat
      gross := gross
      vat_code := vcode
      source_type := srcType
      raw := r.map (fun kv => (kv.1, scrubCell kv.2)) }

/-- Embedding of the per-sheet body of parse_excel: resolve the semantic
columns once, skip the sheet when none of net, vat, gross resolves,
classify the source type once, then extract each data row. -/
def parseSheet (showN sheetN filename : String) (cols : List String)
    (rows : List Row) : List Line :=
  let c_date := _find_col cols candDate
  let c_ref := _find_col cols candRef
  let c_supplier := _find_col cols candSupplier
  let c_desc := _find_col cols candDescription
  let c_net := _find_col cols candNet
  let c_vat := _find_col cols candVat
  let c_gross := _find_col cols candGross
  let c_code := _find_col cols candVatCode
  if c_net = none ∧ c_vat = none ∧ c_gross = none then []
  else
    let srcType := detect_source_type sheetN filename
    rows.filterMap
      (processRow showN sheetN srcType c_date c_ref c_supplier c_desc c_net c_vat c_gross c_code)

/-- The six box totals of an Aggregate, one field per dict key of
init_acc. -/
@[ext]
structure Boxes where
  b1 : ℚ
  b4 : ℚ
  b6 : ℚ
  b7 : ℚ
  b8 : ℚ
  b9 : ℚ
deriving DecidableEq

instance : Zero Boxes := ⟨⟨0, 0, 0, 0, 0, 0⟩⟩

instance : Add Boxes :=
  ⟨fun a b => ⟨a.b1 + b.b1, a.b4 + b.b4, a.b6 + b.b6, a.b7 + b.b7, a.b8 + b.b8, a.b9 + b.b9⟩⟩

@[simp] theorem Boxes.zero_b1 : (0 : Boxes).b1 = 0 := rfl
@[simp] theorem Boxes.zero_b4 : (0 : Boxes).b4 = 0 := rfl
@[simp] theorem Boxes.zero_b6 : (0 : Boxes).b6 = 0 := rfl
@[simp] theorem Boxes.zero_b7 : (0 : Boxes).b7 = 0 := rfl
@[simp] theorem Boxes.zero_b8 : (0 : Boxes).b8 = 0 := rfl
@[simp] theorem Boxes.zero_b9 : (0 : Boxes).b9 = 0 := rfl
@[simp] theorem Boxes.add_b1 (a b : Boxes) : (a + b).b1 = a.b1 + b.b1 := rfl
@[simp] theorem Boxes.add_b4 (a b : Boxes) : (a + b).b4 = a.b4 + b.b4 := rfl
@[simp] theorem Boxes.add_b6 (a b : Boxes) : (a + b).b6 = a.b6 + b.b6 := rfl
@[simp] theorem Boxes.add_b7 (a b : Boxes) : (a + b).b7 = a.b7 + b.b7 := rfl
@[simp] theorem Boxes.add_b8 (a b : Boxes) : (a + b).b8 = a.b8 + b.b8 := rfl
@[simp] theorem Boxes.add_b9 (a b : Boxes) : (a + b).b9 = a.b9 + b.b9 := rfl

instance : AddCommMonoid Boxes where
  add_assoc a b c := by ext <;> simp <;> ring
  zero_add a := by ext <;> simp
  add_zero a := by ext <;> simp
  add_comm a b := by ext <;> simp <;> ring
  nsmul := nsmulRec

/-- The first three rows of the rule table, as an if/elif/elif chain on the
Line, mirroring the source exactly. -/
def step1 (b : Boxes) (ln : Line) : Boxes :=
  if ln.source_type = "sales" ∧ ln.vat_code = "T20" then
    { b with b1 := b.b1 + ln.vat, b6 := b.b6 + ln.net }
  else if (ln.source_type = "purchases" ∨ ln.source_type = "unknown")
      ∧ (ln.vat_code = "T20" ∨ ln.vat_code = "REDUCED") then
    { b with b4 := b.b4 + ln.vat, b7 := b.b7 + ln.net }
  else if ln.source_type = "sales" ∧ ln.vat_code = "T0" then
    { b with b6 := b.b6 + ln.net }
  else b

/-- The independent NI/EU rule for box 8 (sales side). -/
def step2 (b : Boxes) (ln : Line) : Boxes :=
  if (ln.vat_code = "NI" ∨ ln.vat_code = "EU") ∧ ln.source_type = "sales" then
    { b with b8 := b.b8 + ln.net }
  else b

/-- The independent NI/EU rule for box 9 (non-sales side). -/
def step3 (b : Boxes) (ln : Line) : Boxes :=
  if (ln.vat_code = "NI" ∨ ln.vat_code = "EU") ∧ ln.source_type ≠ "sales" then
    { b with b9 := b.b9 + ln.net }
  else b

/-- Full per-Line effect of the loop body of assign_boxes on a group's
boxes. -/
def updateBoxes (b : Boxes) (ln : Line) : Boxes :=
  step3 (step2 (step1 b ln) ln) ln

/-- Contribution of a single Line, starting from the zero totals. -/
def lineBoxes (ln : Line) : Boxes := updateBoxes 0 ln

/-- One group of assign_boxes output: its running box totals and its Lines
in insertion order. -/
structure Group where
  boxes : Boxes
  lines : List Line
deriving DecidableEq

def applyLine (g : Group) (ln : Line) : Group :=
  ⟨updateBoxes g.boxes ln, g.lines ++ [ln]⟩

/-- dict.setdefault followed by the loop body: update the first entry with
the Line's show key, or append a fresh group at the end. -/
def updateShowAcc : List (String × Group) → Line → List (String × Group)
  | [], ln => [(ln.«show», applyLine ⟨0, []⟩ ln)]
  | (k, g) :: rest, ln =>
    if k = ln.«show» then (k, applyLine g ln) :: rest
    else (k, g) :: updateShowAcc rest ln

/-- The per_show dict of assign_boxes, in insertion order. -/
def per_show (lines : List Line) : List (String × Group) :=
  lines.foldl updateShowAcc []

/-- The consolidated dict: per-key sums of all groups' boxes. -/
def consolidated (lines : List Line) : Boxes :=
  (per_show lines).foldl (fun c p => c + p.2.boxes) 0

/-- Embedding of assign_boxes returning both parts of its result. -/
def assign_boxes (lines : List Line) : List (String × Group) × Boxes :=
  (per_show lines, consolidated lines)

/-- Association-list lookup into the per_show accumulator. -/
def lookupShow : List (String × Group) → String → Option Group
  | [], _ => none
  | (k, g) :: rest, s => if k = s then some g else lookupShow rest s

/-- Box totals of one group of the output, when the group exists. -/
def boxesAt (lines : List Line) (s : String) : Option Boxes :=
  (lookupShow (per_show lines) s).map Group.boxes

/-- Sum of the per-Line contributions of the Lines with a given show
key. -/
def sumContrib (lines : List Line) (s : String) : Boxes :=
  ((lines.filter (fun ln => ln.«show» == s)).map lineBoxes).sum

/-- The loop body splits as old totals plus the fresh contribution of the
Line: every branch only adds to fields. -/
theorem updateBoxes_add (b : Boxes) (ln : Line) :
    updateBoxes b ln = b + updateBoxes 0 ln := by
  unfold updateBoxes step1 step2 step3
  split_ifs <;> ext <;> simp

theorem lineBoxes_def (ln : Line) : lineBoxes ln = updateBoxes 0 ln := rfl

/-- Effect of one setdefault-and-update step on the association list, seen
through lookup. -/
theorem lookupShow_update (acc : List (String × Group)) (ln : Line) (s : String) :
    lookupShow (updateShowAcc acc ln) s =
      if s = ln.«show» then
        some (applyLine ((lookupShow acc ln.«show»).getD ⟨0, []⟩) ln)
      else lookupShow acc s := by
  induction acc with
  | nil =>
    by_cases hs : s = ln.«show»
    · simp [updateShowAcc, lookupShow, hs]
    · simp [updateShowAcc, lookupShow, hs, Ne.symm hs]
  | cons hd tl ih =>
    obtain ⟨k, g⟩ := hd
    by_cases hk : k = ln.«show»
    · by_cases hs : s = ln.«show»
      · simp [updateShowAcc, lookupShow, hk, hs]
      · simp [updateShowAcc, lookupShow, hk, hs, Ne.symm hs]
    · by_cases hs : s = k
      · have hns : ¬s = ln.«show» := hs ▸ hk
        simp [updateShowAcc, lookupShow, hk, hns, hs.symm]
      · have hks : ¬k = s := fun h => hs h.symm
        simp [updateShowAcc, lookupShow, hk, hks, ih]

/-- Box totals seen through an optional group, zero when absent. -/
def optBoxes (o : Option Group) : Boxes := (o.map Group.boxes).getD 0

theorem optBoxes_getD (o : Option Group) :
    (o.getD ⟨0, []⟩).boxes = optBoxes o := by
  cases o <;> rfl

/-- Presence of a group after folding: it was already there or some folded
Line carries its key. -/
theorem lookup_foldl_isSome (lines : List Line) (acc : List (String × Group)) (s : String) :
    (lookupShow (lines.foldl updateShowAcc acc) s).isSome =
      ((lookupShow acc s).isSome || lines.any (fun ln => ln.«show» == s)) := by
  induction lines generalizing acc with
  | nil => simp
  | cons ln ls ih =>
    rw [List.foldl_cons, ih, lookupShow_update]
    by_cases hs : s = ln.«show»
    · have hb : (ln.«show» == s) = true := beq_iff_eq.mpr hs.symm
      simp [hs, hb]
    · have hb : (ln.«show» == s) = false := beq_eq_false_iff_ne.mpr (Ne.symm hs)
      simp [hs, hb]

/-- Totals of a group after folding: whatever was accumulated plus the
contributions of the folded Lines with that key. -/
theorem lookup_foldl_boxes (lines : List Line) (acc : List (String × Group)) (s : String) :
    optBoxes (lookupShow (lines.foldl updateShowAcc acc) s) =
      optBoxes (lookupShow acc s) + sumContrib lines s := by
  induction lines generalizing acc with
  | nil => simp [sumContrib]
  | cons ln ls ih =>
    rw [List.foldl_cons, ih, lookupShow_update]
    by_cases hs : s = ln.«show»
    · have hb : (ln.«show» == s) = true := beq_iff_eq.mpr hs.symm
      have h1 : optBoxes (some (applyLine ((lookupShow acc ln.«show»).getD ⟨0, []⟩) ln)) =
          optBoxes (lookupShow acc ln.«show») + lineBoxes ln := by
        simp only [optBoxes, Option.map_some, Option.getD_some, applyLine]
        rw [updateBoxes_add, optBoxes_getD]
        rfl
      have h2 : sumContrib (ln :: ls) s = lineBoxes ln + sumContrib ls s := by
        simp [sumContrib, List.filter_cons, hb]
      rw [if_pos hs, h1, h2, hs]
      exact add_assoc _ _ _
    · have hb : (ln.«show» == s) = false := beq_eq_false_iff_ne.mpr (Ne.symm hs)
      have h2 : sumContrib (ln :: ls) s = sumContrib ls s := by
        simp [sumContrib, List.filter_cons, hb]
      rw [if_neg hs, h2]

/-- Specification of the per-group totals of assign_boxes: present exactly
when some Line has the key, with totals the sum of those Lines'
contributions. -/
theorem boxesAt_isSome (lines : List Line) (s : String) :
    (boxesAt lines s).isSome = lines.any (fun ln => ln.«show» == s) := by
  have h := lookup_foldl_isSome lines [] s
  simp only [lookupShow, Option.isSome_none, Bool.false_or] at h
  simpa [boxesAt, per_show] using h

theorem boxesAt_getD (lines : List Line) (s : String) :
    (boxesAt lines s).getD 0 = sumContrib lines s := by
  have h := lookup_foldl_boxes lines [] s
  simp only [lookupShow, optBoxes, Option.map_none, Option.getD_none, zero_add] at h
  simpa [boxesAt, per_show, optBoxes] using h

/-- Two optional totals agree when they agree on presence and on value. -/
theorem option_boxes_ext (o1 o2 : Option Boxes)
    (h1 : o1.isSome = o2.isSome) (h2 : o1.getD 0 = o2.getD 0) : o1 = o2 := by
  cases o1 <;> cases o2 <;> simp_all

/-- The foldl that sums group boxes is the list sum. -/
theorem foldl_add_boxes (ps : List (String × Group)) (b0 : Boxes) :
    ps.foldl (fun c p => c + p.2.boxes) b0 = b0 + (ps.map (fun p => p.2.boxes)).sum := by
  induction ps generalizing b0 with
  | nil => simp
  | cons hd tl ih => simp [ih, add_assoc]

/-- One fold step adds exactly one Line's contribution to the total over
all groups. -/
theorem sumBoxes_update (acc : List (String × Group)) (ln : Line) :
    ((updateShowAcc acc ln).map (fun p => p.2.boxes)).sum =
      (acc.map (fun p => p.2.boxes)).sum + lineBoxes ln := by
  induction acc with
  | nil =>
    simp [updateShowAcc, applyLine, lineBoxes]
  | cons hd tl ih =>
    obtain ⟨k, g⟩ := hd
    by_cases hk : k = ln.«show»
    · simp only [updateShowAcc, if_pos hk, List.map_cons, List.sum_cons, applyLine]
      rw [updateBoxes_add]
      exact add_right_comm _ _ _
    · simp only [updateShowAcc, if_neg hk, List.map_cons, List.sum_cons, ih]
      exact (add_assoc _ _ _).symm

/-- Folding Lines adds the sum of their contributions to the total over
all groups. -/
theorem sum_foldl (lines : List Line) (acc : List (String × Group)) :
    ((lines.foldl updateShowAcc acc).map (fun p => p.2.boxes)).sum =
      (acc.map (fun p => p.2.boxes)).sum + (lines.map lineBoxes).sum := by
  induction lines generalizing acc with
  | nil => simp
  | cons ln ls ih =>
    rw [List.foldl_cons, ih, sumBoxes_update]
    simp [add_assoc, add_comm (lineBoxes ln)]

/-- The consolidated totals are the sum of the per-Line contributions,
independently of how the Lines fall into groups. -/
theorem conso_spec (lines : List Line) :
    consolidated lines = (lines.map lineBoxes).sum := by
  unfold consolidated
  rw [foldl_add_boxes]
  unfold per_show
  rw [sum_foldl]
  simp

/-- Lines whose boxes contribution coincides pointwise give equal total
maps. -/
theorem boxesAt_congr (l1 l2 : List Line)
    (hany : ∀ s, l1.any (fun ln => ln.«show» == s) = l2.any (fun ln => ln.«show» == s))
    (hsum : ∀ s, sumContrib l1 s = sumContrib l2 s) (s : String) :
    boxesAt l1 s = boxesAt l2 s := by
  refine option_boxes_ext _ _ ?_ ?_
  · rw [boxesAt_isSome, boxesAt_isSome, hany]
  · rw [boxesAt_getD, boxesAt_getD, hsum]

/-- C3: the box totals of assign_boxes are invariant under permutation of
the input Lines, per group (conjunct 1) and consolidated (conjunct 2);
groups collect exactly the Lines with the batch (show) key (conjunct 3),
and renaming every sheet arbitrarily changes no group total (conjunct 4),
so grouping is by show, never by sheet. -/
theorem assign_boxes_perm_invariant (l1 l2 : List Line) (h : l1.Perm l2) :
    (∀ s, boxesAt l1 s = boxesAt l2 s) ∧
    consolidated l1 = consolidated l2 ∧
    (∀ s, (boxesAt l1 s).getD 0 = sumContrib l1 s) ∧
    (∀ g : Line → String, ∀ s,
      boxesAt (l1.map (fun ln => { ln with sheet := g ln })) s = boxesAt l1 s) := by
  refine ⟨fun s => ?_, ?_, fun s => boxesAt_getD l1 s, fun g s => ?_⟩
  · refine boxesAt_congr l1 l2 (fun t => ?_) (fun t => ?_) s
    · rw [Bool.eq_iff_iff]
      simp only [List.any_eq_true]
      exact ⟨fun ⟨x, hx, hp⟩ => ⟨x, h.mem_iff.mp hx, hp⟩,
             fun ⟨x, hx, hp⟩ => ⟨x, h.mem_iff.mpr hx, hp⟩⟩
    · exact ((h.filter _).map lineBoxes).sum_eq
  · rw [conso_spec, conso_spec]
    exact (h.map lineBoxes).sum_eq
  · refine boxesAt_congr _ l1 (fun t => ?_) (fun t => ?_) s
    · rw [List.any_map]
      rfl
    · unfold sumContrib
      rw [List.filter_map, List.map_map]
      rfl

def lnA : Line :=
  ⟨"A", "s1", none, none, none, none, 100, 20, 120, "T20", "sales", []⟩

def lnB : Line :=
  ⟨"A", "s2", none, none, none, none, 50, 0, 50, "EU", "sales", []⟩

/-- C3 witness: swapping two concrete Lines leaves the consolidated totals
unchanged. -/
theorem assign_boxes_perm_invariant_witness :
    consolidated [lnA, lnB] = consolidated [lnB, lnA] :=
  (assign_boxes_perm_invariant [lnA, lnB] [lnB, lnA] (List.Perm.swap lnB lnA [])).2.1

/-- C5: the consolidated totals of assign_boxes are the sum over all
groups of the group box totals (equality of the whole six-key record, so
of every box key 1, 4, 6, 7, 8, 9), for every input; they also equal the
grouping-free sum of the per-Line contributions, so the identity holds for
any assignment of Lines to groups. -/
theorem consolidated_eq_sum_groups (lines : List Line) :
    (assign_boxes lines).2 = ((assign_boxes lines).1.map (fun p => p.2.boxes)).sum ∧
    (assign_boxes lines).2 = (lines.map lineBoxes).sum := by
  constructor
  · show consolidated lines = ((per_show lines).map (fun p => p.2.boxes)).sum
    unfold consolidated
    rw [foldl_add_boxes]
    simp
  · exact conso_spec lines

/-- C1 counterexample: with an empty code token and fallback description
Sale to EU customer the normaliser returns EXEMPT, not EU, because the
table key e is found inside sale before eu is reached. -/
theorem normalise_desc_eu_counterexample :
    normalise_vat_code (.str "") "Sale to EU customer" = "EXEMPT" ∧
    ¬normalise_vat_code (.str "") "Sale to EU customer" = "EU" := by decide

/-- C1 (amended): when neither the regex phase nor the token phase of the
normaliser resolves the code token, the result is the tag of the first
table key found as a substring of the lower-cased fallback description
(UNKNOWN when none is); on the concrete input of Example 2 this yields
EXEMPT. -/
theorem normalise_desc_scan (val : CellValue) (desc : String)
    (h1 : vatRegexPhase (vatToken val) = none)
    (h2 : vatTokenPhase (vatToken val) = none) :
    normalise_vat_code val desc = (vatDescPhase desc).getD "UNKNOWN" ∧
    normalise_vat_code (.str "") "Sale to EU customer" = "EXEMPT" := by
  refine ⟨?_, by decide⟩
  simp only [normalise_vat_code, h1, h2]
  cases hd : vatDescPhase desc <;> simp [hd]

/-- C1 witness: the fallback of Example 2 goes through the description
scan. -/
theorem normalise_desc_scan_witness :
    normalise_vat_code (.str "") "Sale to EU customer" =
      (vatDescPhase "Sale to EU customer").getD "UNKNOWN" :=
  (normalise_desc_scan (.str "") "Sale to EU customer" rfl rfl).1

/-- C2 counterexample: the canonical tag EU does not normalise to itself;
the regex matches eu and the table scan of that block hits the key e
first. -/
theorem normalise_eu_token_counterexample :
    normalise_vat_code (.str "EU") "" = "EXEMPT" ∧
    ¬normalise_vat_code (.str "EU") "" = "EU" := by decide

/-- C2 (amended): normalising an already-canonical tag with empty fallback
description is the identity for T20, T0, EXEMPT, OOS, REDUCED and NI, but
EU normalises to EXEMPT. -/
theorem normalise_idempotent_on_tags :
    normalise_vat_code (.str "T20") "" = "T20" ∧
    normalise_vat_code (.str "T0") "" = "T0" ∧
    normalise_vat_code (.str "EXEMPT") "" = "EXEMPT" ∧
    normalise_vat_code (.str "OOS") "" = "OOS" ∧
    normalise_vat_code (.str "REDUCED") "" = "REDUCED" ∧
    normalise_vat_code (.str "NI") "" = "NI" ∧
    normalise_vat_code (.str "EU") "" = "EXEMPT" := by decide

/-- C8: value coercion is total (a Lean function into the rationals, one
equation per constructor, so it never raises), sends missing and absent
values to 0, parses strings after comma-stripping and trimming with 0 on
failure, passes numbers through, and coerces the string of Example 6 to
1234.56. -/
theorem to_float_total_spec :
    to_float .na = 0 ∧
    to_float .pynone = 0 ∧
    (∀ q : ℚ, to_float (.num q) = q) ∧
    to_float (.str "1,234.56") = 1234.56 ∧
    to_float (.str "  7.5 ") = 7.5 ∧
    to_float (.str "abc") = 0 ∧
    to_float (.str "12x") = 0 ∧
    (∀ s : String,
      to_float (.str s) =
        (parseDec (pyStripL (s.data.filter (fun c => decide (c ≠ ','))))).getD 0) :=
  ⟨rfl, rfl, fun _ => rfl, by with_unfolding_all rfl, by with_unfolding_all rfl,
    by decide, by decide, fun _ => rfl⟩

/-- The raw conditions of the first three rule-table rows. -/
def rule1Cond (ln : Line) : Prop :=
  ln.source_type = "sales" ∧ ln.vat_code = "T20"

def rule2Cond (ln : Line) : Prop :=
  (ln.source_type = "purchases" ∨ ln.source_type = "unknown")
    ∧ (ln.vat_code = "T20" ∨ ln.vat_code = "REDUCED")

def rule3Cond (ln : Line) : Prop :=
  ln.source_type = "sales" ∧ ln.vat_code = "T0"

theorem step1_b8 (b : Boxes) (ln : Line) : (step1 b ln).b8 = b.b8 := by
  unfold step1; split_ifs <;> rfl

theorem step1_b9 (b : Boxes) (ln : Line) : (step1 b ln).b9 = b.b9 := by
  unfold step1; split_ifs <;> rfl

theorem step2_b6 (b : Boxes) (ln : Line) : (step2 b ln).b6 = b.b6 := by
  unfold step2; split_ifs <;> rfl

theorem step2_b9 (b : Boxes) (ln : Line) : (step2 b ln).b9 = b.b9 := by
  unfold step2; split_ifs <;> rfl

theorem step3_b6 (b : Boxes) (ln : Line) : (step3 b ln).b6 = b.b6 := by
  unfold step3; split_ifs <;> rfl

theorem step3_b8 (b : Boxes) (ln : Line) : (step3 b ln).b8 = b.b8 := by
  unfold step3; split_ifs <;> rfl

/-- A Line tagged EU never matches any of the first three rules. -/
theorem step1_eu (b : Boxes) (ln : Line) (he : ln.vat_code = "EU") :
    step1 b ln = b := by
  unfold step1; split_ifs <;> simp_all

/-- C4: the three box1/box6, box4/box7, box6 rules are mutually exclusive
(conjuncts 1 to 3), the NI/EU box8 and box9 rules fire independently on
top of them (conjuncts 4 and 5), and a sales Line with vat_code EU adds
its net to box8 while leaving box6 unchanged (conjunct 6). -/
theorem box_rules_exclusive_independent (ln : Line) (b : Boxes) :
    ¬(rule1Cond ln ∧ rule2Cond ln) ∧
    ¬(rule1Cond ln ∧ rule3Cond ln) ∧
    ¬(rule2Cond ln ∧ rule3Cond ln) ∧
    ((ln.vat_code = "NI" ∨ ln.vat_code = "EU") → ln.source_type = "sales" →
      (updateBoxes b ln).b8 = b.b8 + ln.net) ∧
    ((ln.vat_code = "NI" ∨ ln.vat_code = "EU") → ¬ln.source_type = "sales" →
      (updateBoxes b ln).b9 = b.b9 + ln.net) ∧
    (ln.source_type = "sales" → ln.vat_code = "EU" →
      (updateBoxes b ln).b6 = b.b6 ∧ (updateBoxes b ln).b8 = b.b8 + ln.net) := by
  have hb8 : ∀ (_ : ln.vat_code = "NI" ∨ ln.vat_code = "EU")
      (_ : ln.source_type = "sales"), (updateBoxes b ln).b8 = b.b8 + ln.net := by
    intro hc hs
    unfold updateBoxes
    rw [step3_b8]
    unfold step2
    rw [if_pos ⟨hc, hs⟩]
    show (step1 b ln).b8 + ln.net = b.b8 + ln.net
    rw [step1_b8]
  have hb9 : ∀ (_ : ln.vat_code = "NI" ∨ ln.vat_code = "EU")
      (_ : ¬ln.source_type = "sales"), (updateBoxes b ln).b9 = b.b9 + ln.net := by
    intro hc hs
    unfold updateBoxes step3
    rw [if_pos ⟨hc, hs⟩]
    show (step2 (step1 b ln) ln).b9 + ln.net = b.b9 + ln.net
    rw [step2_b9, step1_b9]
  have hb6 : ln.source_type = "sales" → ln.vat_code = "EU" →
      (updateBoxes b ln).b6 = b.b6 := by
    intro hs he
    unfold updateBoxes
    rw [step3_b6, step2_b6, step1_eu b ln he]
  refine ⟨?_, ?_, ?_, hb8, hb9, fun hs he => ⟨hb6 hs he, hb8 (Or.inr he) hs⟩⟩
  · rintro ⟨⟨hs1, _⟩, hs2, _⟩
    rw [hs1] at hs2
    rcases hs2 with h | h <;> exact absurd h (by decide)
  · rintro ⟨⟨_, hc1⟩, _, hc3⟩
    rw [hc1] at hc3
    exact absurd hc3 (by decide)
  · rintro ⟨⟨hs2, _⟩, hs3, _⟩
    rw [hs3] at hs2
    rcases hs2 with h | h <;> exact absurd h (by decide)

def lnEU : Line :=
  ⟨"S", "sheet", none, none, none, none, 50, 0, 50, "EU", "sales", []⟩

/-- C4 witness: Example 5 at net 50, starting from zero totals. -/
theorem box_rules_witness :
    (updateBoxes 0 lnEU).b6 = (0 : Boxes).b6 ∧
    (updateBoxes 0 lnEU).b8 = (0 : Boxes).b8 + 50 := by
  have h := (box_rules_exclusive_independent lnEU 0).2.2.2.2.2 rfl rfl
  exact ⟨h.1, h.2⟩

/-- C6: a row whose three coerced amounts are all zero yields no Line. -/
theorem no_line_for_zero_row (showN sheetN st : String)
    (c_date c_ref c_supplier c_desc c_net c_vat c_gross c_code : Option String) (r : Row)
    (h1 : rowNet c_net r = 0) (h2 : rowVat c_vat r = 0)
    (h3 : rowGross c_gross c_net c_vat r = 0) :
    processRow showN sheetN st c_date c_ref c_supplier c_desc c_net c_vat c_gross
      c_code r = none := by
  simp [processRow, h1, h2, h3]

def zRow : Row := [("Net", .num 0), ("VAT", .str "")]

/-- C6 witness: a concrete all-zero row (a zero number and an empty
string) is discarded. -/
theorem no_line_for_zero_row_witness :
    processRow "s" "sh" "unknown" none none none none (some "Net") (some "VAT") none
      none zRow = none :=
  no_line_for_zero_row "s" "sh" "unknown" none none none none (some "Net") (some "VAT")
    none none zRow rfl rfl (by with_unfolding_all rfl)

/-- Rows processed with no resolved gross column satisfy the gross default
rule. -/
theorem processRow_gross_default (showN sheetN st : String)
    (c_date c_ref c_supplier c_desc c_net c_vat c_code : Option String) (r : Row)
    (ln : Line)
    (hsome : processRow showN sheetN st c_date c_ref c_supplier c_desc c_net c_vat
      none c_code r = some ln) :
    ln.gross = ln.net + ln.vat := by
  simp only [processRow] at hsome
  split at hsome
  · exact Option.noConfusion hsome
  · obtain rfl := Option.some.inj hsome
    rfl

/-- C7: every Line extracted from a sheet in which no gross column
resolves has gross equal to net plus vat exactly. -/
theorem gross_default_rule (showN sheetN filename : String) (cols : List String)
    (rows : List Row) (hg : _find_col cols candGross = none) :
    ∀ ln ∈ parseSheet showN sheetN filename cols rows, ln.gross = ln.net + ln.vat := by
  intro ln hln
  simp only [parseSheet, hg] at hln
  split at hln
  · simp at hln
  · obtain ⟨r, _, hfr⟩ := List.mem_filterMap.mp hln
    exact processRow_gross_default _ _ _ _ _ _ _ _ _ _ r ln hfr

def wCols : List String := ["Net", "VAT"]

def wRow : Row := [("Net", .num 100), ("VAT", .num 20)]

/-- The Line the extractor produces from wRow on a sheet with headers Net
and VAT only. -/
def wLine : Line :=
  ⟨"myshow", "Sheet1", none, none, none, none, 100, 20, 120, "EXEMPT", "unknown",
    [("Net", .num 100), ("VAT", .num 20)]⟩

theorem parseSheet_w :
    parseSheet "myshow" "Sheet1" "f.xlsx" wCols [wRow] = [wLine] := by
  with_unfolding_all rfl

/-- C7 witness: on the concrete sheet with no gross column, the extracted
Line has gross 120 = 100 + 20. -/
theorem gross_default_rule_witness : wLine.gross = wLine.net + wLine.vat :=
  gross_default_rule "myshow" "Sheet1" "f.xlsx" wCols [wRow] (by decide) wLine
    (by rw [parseSheet_w]; exact List.mem_singleton_self wLine)

/-- Rows processed with neither code nor description column resolved get
the tag EXEMPT: the fallback description is the rendered string None and
the table key e occurs in none. -/
theorem processRow_code_desc_unresolved (showN sheetN st : String)
    (c_date c_ref c_supplier c_net c_vat c_gross : Option String) (r : Row) (ln : Line)
    (hsome : processRow showN sheetN st c_date c_ref c_supplier none c_net c_vat c_gross
      none r = some ln) :
    ln.vat_code = "EXEMPT" := by
  simp only [processRow] at hsome
  split at hsome
  · exact Option.noConfusion hsome
  · obtain rfl := Option.some.inj hsome
    exact (by decide : normalise_vat_code (.str "") "None" = "EXEMPT")

/-- C10: on a sheet where neither a VAT-code nor a description column
resolves, every produced Line carries vat_code EXEMPT, not UNKNOWN,
because normalising with fallback description None hits the single-letter
key e inside none. -/
theorem vat_code_exempt_when_unresolved (showN sheetN filename : String)
    (cols : List String) (rows : List Row)
    (hc : _find_col cols candVatCode = none)
    (hd : _find_col cols candDescription = none) :
    (∀ ln ∈ parseSheet showN sheetN filename cols rows, ln.vat_code = "EXEMPT") ∧
    normalise_vat_code (.str "") "None" = "EXEMPT" := by
  refine ⟨fun ln hln => ?_, by decide⟩
  simp only [parseSheet, hc, hd] at hln
  split at hln
  · simp at hln
  · obtain ⟨r, _, hfr⟩ := List.mem_filterMap.mp hln
    exact processRow_code_desc_unresolved _ _ _ _ _ _ _ _ _ r ln hfr

/-- C10 witness: the concrete sheet with headers Net and VAT resolves
neither code nor description, and its extracted Line is tagged EXEMPT. -/
theorem vat_code_exempt_witness : wLine.vat_code = "EXEMPT" :=
  (vat_code_exempt_when_unresolved "myshow" "Sheet1" "f.xlsx" wCols [wRow]
    (by decide) (by decide)).1 wLine
    (by rw [parseSheet_w]; exact List.mem_singleton_self wLine)

theorem exactPass_eq_none_iff (cols keys : List String) :
    exactPass cols keys = none ↔
      ∀ k ∈ keys, ∀ c ∈ cols, ¬normHeader c = lowerS k := by
  unfold exactPass
  rw [List.findSome?_eq_none_iff]
  constructor
  · intro h k hk c hc hceq
    have h2 := h k hk
    rw [List.find?_eq_none] at h2
    exact h2 c hc (beq_iff_eq.mpr hceq)
  · intro h k hk
    rw [List.find?_eq_none]
    intro c hc hbeq
    exact h k hk c hc (beq_iff_eq.mp hbeq)

theorem fuzzyPass_eq_none_iff (cols keys : List String) :
    fuzzyPass cols keys = none ↔
      ∀ k ∈ keys, ∀ c ∈ cols, ¬isSub (lowerS k).data (lowerS c).data = true := by
  unfold fuzzyPass
  rw [List.findSome?_eq_none_iff]
  constructor
  · intro h k hk c hc hsub
    have h2 := h k hk
    rw [List.find?_eq_none] at h2
    exact h2 c hc hsub
  · intro h k hk
    rw [List.find?_eq_none]
    exact fun c hc hsub => h k hk c hc hsub

theorem exactPass_some (cols keys : List String) (c : String)
    (h : exactPass cols keys = some c) :
    c ∈ cols ∧ ∃ k ∈ keys, normHeader c = lowerS k := by
  unfold exactPass at h
  obtain ⟨k, hk, hfind⟩ := List.exists_of_findSome?_eq_some h
  have hp : normHeader c = lowerS k := by simpa using List.find?_some hfind
  exact ⟨List.mem_of_find?_eq_some hfind, k, hk, hp⟩

/-- C9: the resolver returns no match exactly when no candidate matches a
header in either mode (conjunct 1); whenever some exact case-insensitive
whitespace-collapsed match exists, the returned header is an exact match,
so exact matching wins over substring matching (conjunct 2); and on a
concrete header list where a substring match sits earlier in column order
than the exact match, the exact match is returned (conjunct 3), with
candidate-list order checked before column order in the exact pass
(conjunct 4). -/
theorem find_col_precedence (cols keys : List String) :
    (_find_col cols keys = none ↔
      ∀ k ∈ keys, ∀ c ∈ cols,
        ¬normHeader c = lowerS k ∧ ¬isSub (lowerS k).data (lowerS c).data = true) ∧
    ((∃ k ∈ keys, ∃ c ∈ cols, normHeader c = lowerS k) →
      ∃ c, _find_col cols keys = some c ∧ c ∈ cols ∧
        ∃ k ∈ keys, normHeader c = lowerS k) ∧
    _find_col ["VAT Rate", "VAT"] ["vat"] = some "VAT" ∧
    _find_col ["Rate", "Code"] ["code", "rate"] = some "Code" := by
  refine ⟨?_, ?_, by decide, by decide⟩
  · cases he : exactPass cols keys with
    | some c =>
      have hfc : _find_col cols keys = some c := by unfold _find_col; rw [he]
      rw [hfc]
      constructor
      · intro h; exact Option.noConfusion h
      · intro hall
        obtain ⟨hc, k, hk, hkc⟩ := exactPass_some cols keys c he
        exact absurd hkc (hall k hk c hc).1
    | none =>
      have hfc : _find_col cols keys = fuzzyPass cols keys := by
        unfold _find_col; rw [he]
      rw [hfc]
      constructor
      · intro hf k hk c hc
        exact ⟨(exactPass_eq_none_iff cols keys).mp he k hk c hc,
               (fuzzyPass_eq_none_iff cols keys).mp hf k hk c hc⟩
      · intro hall
        exact (fuzzyPass_eq_none_iff cols keys).mpr fun k hk c hc => (hall k hk c hc).2
  · rintro ⟨k, hk, c, hc, hkc⟩
    cases he : exactPass cols keys with
    | some c0 =>
      obtain ⟨hc0, k0, hk0, hkc0⟩ := exactPass_some cols keys c0 he
      refine ⟨c0, ?_, hc0, k0, hk0, hkc0⟩
      unfold _find_col
      rw [he]
    | none =>
      exact absurd hkc ((exactPass_eq_none_iff cols keys).mp he k hk c hc)

/-- C9 witness: candNet contains the candidate amount, a substring of the
first header, yet the exact match net on the second header wins. -/
theorem find_col_precedence_witness :
    ∃ c, _find_col ["Total Amount", "Net"] candNet = some c ∧
      c ∈ ["Total Amount", "Net"] ∧ ∃ k ∈ candNet, normHeader c = lowerS k :=
  (find_col_precedence ["Total Amount", "Net"] candNet).2.1 (by decide)

end PslMtd
